import Mathlib

/-!
Shallow embedding of the rocket-todo-app service (src/main.rs).

The store is a `TodoAppState` holding a list of `Todo` records; the
mutation and query operations below are direct translations of the
`impl TodoAppState` methods, and the route-handler functions translate
the HTTP handlers. Each handler is modelled as a pure function from the
locked store state to the pair of the store state after the call and the
JSON envelope it serializes. `Uuid::new_v4()` produces a value no pure
function can compute, so the freshly generated id string is passed to
`add_todo` as an explicit argument; runs of the service are modelled by
`runOps`, which draws successive ids from a supply `gen : Nat → String`,
and the supply's injectivity stands for the uniqueness of version-4 UUIDs.
-/

/-- Rust struct `Todo` (main.rs lines 26-31): id, content, completed. -/
structure Todo where
  id : String
  content : String
  completed : Bool
  deriving DecidableEq

/-- Rust struct `TodoAppState` (main.rs lines 35-38): the ordered todo list. -/
structure TodoAppState where
  todos : List Todo
  deriving DecidableEq

namespace TodoAppState

/-- Rust `TodoAppState::new` (main.rs lines 41-43): the empty store. -/
def new : TodoAppState := { todos := [] }

/-- Rust `TodoAppState::add_todo` (main.rs lines 45-55). The id produced by
`Uuid::new_v4().to_hyphenated().to_string()` is the `uuid` argument; the
method pushes the new todo at the end and returns its id. -/
def add_todo (uuid : String) (content : String) (s : TodoAppState) :
    TodoAppState × String :=
  let todo : Todo := { id := uuid, content := content, completed := false }
  ({ todos := s.todos ++ [todo] }, todo.id)

/-- Rust `TodoAppState::remove_todo` (main.rs lines 57-61): retain the todos
whose id differs, and report whether the length changed. -/
def remove_todo (todo_id : String) (s : TodoAppState) : TodoAppState × Bool :=
  let kept := s.todos.filter (fun todo => todo.id != todo_id)
  ({ todos := kept }, s.todos.length != kept.length)

/-- Rust `TodoAppState::clear_completed` (main.rs lines 63-65): retain the
todos that are not completed. -/
def clear_completed (s : TodoAppState) : TodoAppState :=
  { todos := s.todos.filter (fun todo => !todo.completed) }

/-- The list traversal inside Rust `TodoAppState::handle_todo` (main.rs lines
67-78): walk the list, apply `handler` to the first todo whose id matches and
stop with `true`; return `false` if none matches. -/
def handleTodoList (todo_id : String) (handler : Todo → Todo) :
    List Todo → List Todo × Bool
  | [] => ([], false)
  | todo :: rest =>
    if todo.id = todo_id then (handler todo :: rest, true)
    else
      let r := handleTodoList todo_id handler rest
      (todo :: r.1, r.2)

/-- Rust `TodoAppState::handle_todo` (main.rs lines 67-78). -/
def handle_todo (todo_id : String) (handler : Todo → Todo) (s : TodoAppState) :
    TodoAppState × Bool :=
  let r := handleTodoList todo_id handler s.todos
  ({ todos := r.1 }, r.2)

/-- Rust `TodoAppState::update_todo` (main.rs lines 80-88): overwrite the
matching todo with the same id, the new content and the old completed flag. -/
def update_todo (todo_id : String) (todo_content : String) (s : TodoAppState) :
    TodoAppState × Bool :=
  handle_todo todo_id
    (fun todo => { id := todo_id, content := todo_content, completed := todo.completed }) s

/-- Rust `TodoAppState::toggle_todo` (main.rs lines 90-94): negate the
matching todo's completed flag. -/
def toggle_todo (todo_id : String) (s : TodoAppState) : TodoAppState × Bool :=
  handle_todo todo_id (fun todo => { todo with completed := !todo.completed }) s

/-- Rust `TodoAppState::toggle_all` (main.rs lines 96-109): first scan the
whole list to decide whether every todo is completed (the early-exit loop is
`List.all`), then set every completed flag to the negation of that single
decision. -/
def toggle_all (s : TodoAppState) : TodoAppState :=
  let all_completed := s.todos.all (fun todo => todo.completed)
  { todos := s.todos.map (fun todo => { todo with completed := !all_completed }) }

end TodoAppState

/-- The `{success, message}` JSON envelope every non-listing handler returns
(main.rs: AddTodoResponse, RemoveTodoResponse, UpdateTodoResponse,
ToggleTodoResponse, ClearCompletedResponse, ToggleAllResponse). -/
structure Envelope where
  success : Bool
  message : String
  deriving DecidableEq

/-- Rust struct `TodosResponse` (main.rs lines 123-128). -/
structure TodosResponse where
  success : Bool
  message : String
  data : List Todo
  deriving DecidableEq

/-- The retain predicate inside the `todos` handler (main.rs lines 135-146):
match on the optional filter string. -/
def filterKeep (filter : Option String) (todo : Todo) : Bool :=
  match filter with
  | some f =>
    if f = "all" then true
    else if f = "active" then !todo.completed
    else if f = "completed" then todo.completed
    else true
  | none => true

/-- Rust handler `todos` (main.rs lines 130-153): copy the todo list, retain
by the filter, answer success with the filtered copy; the store itself is
returned unchanged because only the copy is filtered. -/
def todos (filter : Option String) (s : TodoAppState) :
    TodoAppState × TodosResponse :=
  (s, { success := true, message := "", data := s.todos.filter (filterKeep filter) })

/-- Rust handler `add_todo` (main.rs lines 166-178): add and always answer
success with an empty message. -/
def add_todo (content : String) (uuid : String) (s : TodoAppState) :
    TodoAppState × Envelope :=
  let r := TodoAppState.add_todo uuid content s
  (r.1, { success := true, message := "" })

/-- Rust handler `remove_todo` (main.rs lines 191-208). -/
def remove_todo (todo_id : String) (s : TodoAppState) : TodoAppState × Envelope :=
  let r := TodoAppState.remove_todo todo_id s
  match r.2 with
  | true => (r.1, { success := true, message := "" })
  | false => (r.1, { success := false, message := todo_id ++ " is not found" })

/-- Rust handler `update_todo` (main.rs lines 222-238). -/
def update_todo (todo_id : String) (content : String) (s : TodoAppState) :
    TodoAppState × Envelope :=
  let r := TodoAppState.update_todo todo_id content s
  match r.2 with
  | true => (r.1, { success := true, message := "" })
  | false => (r.1, { success := false, message := todo_id ++ " is not found" })

/-- Rust handler `toggle_todo` (main.rs lines 251-267). Its not-found message
carries a trailing exclamation mark, unlike the other two mutation handlers. -/
def toggle_todo (todo_id : String) (s : TodoAppState) : TodoAppState × Envelope :=
  let r := TodoAppState.toggle_todo todo_id s
  match r.2 with
  | true => (r.1, { success := true, message := "" })
  | false => (r.1, { success := false, message := todo_id ++ " is not found!" })

/-- Rust handler `clear_completed` (main.rs lines 275-283). -/
def clear_completed (s : TodoAppState) : TodoAppState × Envelope :=
  (TodoAppState.clear_completed s, { success := true, message := "" })

/-- Rust handler `toggle_all` (main.rs lines 291-299). -/
def toggle_all (s : TodoAppState) : TodoAppState × Envelope :=
  (TodoAppState.toggle_all s, { success := true, message := "" })

/-- An add or remove request against the store, for runs of the service. -/
inductive Op where
  | add : String → Op
  | remove : String → Op
  deriving DecidableEq

/-- One step of a run: an add consumes the next id from the supply `gen`
(the index counts how many UUIDs have been drawn so far), a remove does not. -/
def applyOp (gen : Nat → String) (op : Op) (sn : TodoAppState × Nat) :
    TodoAppState × Nat :=
  match op with
  | Op.add content => ((TodoAppState.add_todo (gen sn.2) content sn.1).1, sn.2 + 1)
  | Op.remove todo_id => ((TodoAppState.remove_todo todo_id sn.1).1, sn.2)

/-- Run a sequence of add/remove operations from a given store and supply
position. -/
def runOps (gen : Nat → String) (ops : List Op) (sn : TodoAppState × Nat) :
    TodoAppState × Nat :=
  ops.foldl (fun acc op => applyOp gen op acc) sn

/-- The states reachable from the empty store at process start. -/
def reachable (gen : Nat → String) (ops : List Op) : TodoAppState × Nat :=
  runOps gen ops (TodoAppState.new, 0)

/-- The ids a run of `ops` draws from the supply, starting at position `n`. -/
def assignedIds (gen : Nat → String) : List Op → Nat → List String
  | [], _ => []
  | Op.add _ :: rest, n => gen n :: assignedIds gen rest (n + 1)
  | Op.remove _ :: rest, n => assignedIds gen rest n

/-- The listing result as the spec words it: "active" keeps the todos with
completed == false, "completed" keeps those with completed == true, and
"all", absence or any other value keeps the whole sequence. -/
def listSpec (filter : Option String) (l : List Todo) : List Todo :=
  if filter = some "active" then l.filter (fun t => t.completed = false)
  else if filter = some "completed" then l.filter (fun t => t.completed = true)
  else l

/-- The invariant every reachable pair (store, UUIDs drawn so far) keeps:
the store's ids are pairwise distinct and each one was drawn from the
supply at an index below the draw counter. -/
def GoodState (gen : Nat → String) (sn : TodoAppState × Nat) : Prop :=
  ((sn.1.todos.map Todo.id).Nodup) ∧ ∀ t ∈ sn.1.todos, ∃ k, k < sn.2 ∧ t.id = gen k

/-- A concrete injective id supply used to instantiate run theorems. -/
def gen0 (n : Nat) : String := String.mk (List.replicate n 'a')

/-! ### Helper lemmas about the store operations -/

theorem handleTodoList_nil (todo_id : String) (handler : Todo → Todo) :
    TodoAppState.handleTodoList todo_id handler [] = ([], false) := rfl

theorem handleTodoList_not_found (todo_id : String) (handler : Todo → Todo)
    (l : List Todo) (h : ∀ t ∈ l, t.id ≠ todo_id) :
    TodoAppState.handleTodoList todo_id handler l = (l, false) := by
  induction l with
  | nil => rfl
  | cons todo rest ih =>
    have h1 : todo.id ≠ todo_id := h todo (List.mem_cons_self _ _)
    have h2 := ih (fun t ht => h t (List.mem_cons_of_mem _ ht))
    simp [TodoAppState.handleTodoList, h1, h2]

theorem handleTodoList_append (todo_id : String) (handler : Todo → Todo)
    (l1 : List Todo) (t : Todo) (l2 : List Todo)
    (h1 : ∀ u ∈ l1, u.id ≠ todo_id) (ht : t.id = todo_id) :
    TodoAppState.handleTodoList todo_id handler (l1 ++ t :: l2)
      = (l1 ++ handler t :: l2, true) := by
  induction l1 with
  | nil => simp [TodoAppState.handleTodoList, ht]
  | cons u rest ih =>
    have hu : u.id ≠ todo_id := h1 u (List.mem_cons_self _ _)
    have h2 := ih (fun v hv => h1 v (List.mem_cons_of_mem _ hv))
    simp [TodoAppState.handleTodoList, hu, h2]

theorem exists_first_match (todo_id : String) (l : List Todo)
    (h : ∃ t ∈ l, t.id = todo_id) :
    ∃ l1 t l2, l = l1 ++ t :: l2 ∧ (∀ u ∈ l1, u.id ≠ todo_id) ∧ t.id = todo_id := by
  induction l with
  | nil => simp at h
  | cons a rest ih =>
    by_cases ha : a.id = todo_id
    · exact ⟨[], a, rest, by simp, by simp, ha⟩
    · obtain ⟨t, htmem, htid⟩ := h
      rcases List.mem_cons.1 htmem with rfl | htmem2
      · exact absurd htid ha
      · obtain ⟨l1, t', l2, hl, hl1, ht'⟩ := ih ⟨t, htmem2, htid⟩
        exact ⟨a :: l1, t', l2, by simp [hl], by
          intro u hu
          rcases List.mem_cons.1 hu with rfl | hu2
          · exact ha
          · exact hl1 u hu2, ht'⟩

theorem handleTodoList_snd (todo_id : String) (handler : Todo → Todo) (l : List Todo) :
    ((TodoAppState.handleTodoList todo_id handler l).2 = true ↔ ∃ t ∈ l, t.id = todo_id) := by
  constructor
  · intro h
    by_contra hno
    push_neg at hno
    rw [handleTodoList_not_found todo_id handler l hno] at h
    simp at h
  · intro h
    obtain ⟨l1, t, l2, rfl, hl1, ht⟩ := exists_first_match todo_id l h
    rw [handleTodoList_append todo_id handler l1 t l2 hl1 ht]

theorem handle_todo_not_found (todo_id : String) (handler : Todo → Todo)
    (s : TodoAppState) (h : ¬ ∃ t ∈ s.todos, t.id = todo_id) :
    TodoAppState.handle_todo todo_id handler s = (s, false) := by
  push_neg at h
  simp [TodoAppState.handle_todo, handleTodoList_not_found todo_id handler s.todos h]

theorem handle_todo_snd (todo_id : String) (handler : Todo → Todo) (s : TodoAppState) :
    ((TodoAppState.handle_todo todo_id handler s).2 = true ↔ ∃ t ∈ s.todos, t.id = todo_id) := by
  simpa [TodoAppState.handle_todo] using handleTodoList_snd todo_id handler s.todos

theorem handle_todo_found (todo_id : String) (handler : Todo → Todo)
    (s : TodoAppState) (h : ∃ t ∈ s.todos, t.id = todo_id) :
    ∃ l1 t l2, s.todos = l1 ++ t :: l2 ∧ (∀ u ∈ l1, u.id ≠ todo_id) ∧ t.id = todo_id ∧
      (TodoAppState.handle_todo todo_id handler s).1.todos = l1 ++ handler t :: l2 ∧
      (TodoAppState.handle_todo todo_id handler s).2 = true := by
  obtain ⟨l1, t, l2, hl, hl1, ht⟩ := exists_first_match todo_id s.todos h
  refine ⟨l1, t, l2, hl, hl1, ht, ?_, ?_⟩
  · simp [TodoAppState.handle_todo, hl, handleTodoList_append todo_id handler l1 t l2 hl1 ht]
  · simp [TodoAppState.handle_todo, hl, handleTodoList_append todo_id handler l1 t l2 hl1 ht]

/-- C5: if a todo with the given id exists, update(id, content) replaces only
that todo's content, keeping its id and completed flag and every other todo
unchanged, and reports true; if no todo has that id it reports false and the
store is unchanged. -/
theorem update_todo_spec (s : TodoAppState) (todo_id todo_content : String) :
    ((TodoAppState.update_todo todo_id todo_content s).2 = true ↔
      ∃ t ∈ s.todos, t.id = todo_id) ∧
    ((¬ ∃ t ∈ s.todos, t.id = todo_id) →
      TodoAppState.update_todo todo_id todo_content s = (s, false)) ∧
    ((∃ t ∈ s.todos, t.id = todo_id) →
      ∃ l1 t l2, s.todos = l1 ++ t :: l2 ∧ t.id = todo_id ∧
        (TodoAppState.update_todo todo_id todo_content s).1.todos
          = l1 ++ { t with content := todo_content } :: l2 ∧
        (TodoAppState.update_todo todo_id todo_content s).2 = true) := by
  refine ⟨handle_todo_snd _ _ _, handle_todo_not_found _ _ _, ?_⟩
  intro h
  obtain ⟨l1, t, l2, hl, _, ht, hres, hsnd⟩ :=
    handle_todo_found todo_id
      (fun todo => { id := todo_id, content := todo_content, completed := todo.completed }) s h
  refine ⟨l1, t, l2, hl, ht, ?_, hsnd⟩
  rw [TodoAppState.update_todo] at *
  rw [hres, ← ht]

theorem TodoAppState.ext (a b : TodoAppState) (h : a.todos = b.todos) : a = b := by
  cases a; cases b; cases h; rfl

theorem toggle_todo_involutive (s : TodoAppState) (todo_id : String)
    (h : ∃ t ∈ s.todos, t.id = todo_id) :
    (TodoAppState.toggle_todo todo_id ((TodoAppState.toggle_todo todo_id s).1)).1 = s := by
  obtain ⟨l1, t, l2, hl, hl1, ht, hres, _⟩ :=
    handle_todo_found todo_id (fun todo => { todo with completed := !todo.completed }) s h
  have hres2 : (TodoAppState.toggle_todo todo_id s).1.todos
      = l1 ++ ({ t with completed := !t.completed } : Todo) :: l2 := hres
  have hback : (fun todo => { todo with completed := !todo.completed })
      ({ t with completed := !t.completed } : Todo) = t := by
    cases t; simp
  have hstep2 := handleTodoList_append todo_id
    (fun todo => { todo with completed := !todo.completed })
    l1 ({ t with completed := !t.completed }) l2 hl1 (by simpa using ht)
  rw [hback] at hstep2
  apply TodoAppState.ext
  show (TodoAppState.handleTodoList todo_id
      (fun todo => { todo with completed := !todo.completed })
      ((TodoAppState.toggle_todo todo_id s).1.todos)).1 = s.todos
  rw [hres2, hstep2]
  exact hl.symm

/-- C8: toggleOne(id) on a present id flips exactly that todo's completed
flag and reports true, and applying it twice restores the original store; on
an absent id it reports false and changes nothing. -/
theorem toggle_todo_spec (s : TodoAppState) (todo_id : String) :
    ((TodoAppState.toggle_todo todo_id s).2 = true ↔ ∃ t ∈ s.todos, t.id = todo_id) ∧
    ((¬ ∃ t ∈ s.todos, t.id = todo_id) → TodoAppState.toggle_todo todo_id s = (s, false)) ∧
    ((∃ t ∈ s.todos, t.id = todo_id) →
      (∃ l1 t l2, s.todos = l1 ++ t :: l2 ∧ t.id = todo_id ∧
        (TodoAppState.toggle_todo todo_id s).1.todos
          = l1 ++ { t with completed := !t.completed } :: l2 ∧
        (TodoAppState.toggle_todo todo_id s).2 = true) ∧
      (TodoAppState.toggle_todo todo_id ((TodoAppState.toggle_todo todo_id s).1)).1 = s) := by
  refine ⟨handle_todo_snd _ _ _, handle_todo_not_found _ _ _, ?_⟩
  intro h
  refine ⟨?_, toggle_todo_involutive s todo_id h⟩
  obtain ⟨l1, t, l2, hl, _, ht, hres, hsnd⟩ :=
    handle_todo_found todo_id (fun todo => { todo with completed := !todo.completed }) s h
  exact ⟨l1, t, l2, hl, ht, hres, hsnd⟩

theorem remove_todo_snd (todo_id : String) (s : TodoAppState) :
    ((TodoAppState.remove_todo todo_id s).2 = true ↔ ∃ t ∈ s.todos, t.id = todo_id) := by
  simp only [TodoAppState.remove_todo]
  have hle := List.length_filter_le (fun t => t.id != todo_id) s.todos
  rw [bne_iff_ne]
  constructor
  · intro hne
    have hlt : (s.todos.filter (fun t => t.id != todo_id)).length < s.todos.length := by
      omega
    simpa using List.length_filter_lt_length_iff_exists.mp hlt
  · intro h
    have hlt : (s.todos.filter (fun t => t.id != todo_id)).length < s.todos.length :=
      List.length_filter_lt_length_iff_exists.mpr (by simpa using h)
    omega

theorem remove_todo_not_found (todo_id : String) (s : TodoAppState)
    (h : ¬ ∃ t ∈ s.todos, t.id = todo_id) :
    TodoAppState.remove_todo todo_id s = (s, false) := by
  push_neg at h
  have hfe : s.todos.filter (fun t => t.id != todo_id) = s.todos :=
    List.filter_eq_self.mpr (fun a ha => by simpa using h a ha)
  simp only [TodoAppState.remove_todo, hfe]
  simp

theorem remove_todo_found (todo_id : String) (s : TodoAppState)
    (hnd : (s.todos.map Todo.id).Nodup) (h : ∃ t ∈ s.todos, t.id = todo_id) :
    ∃ l1 t l2, s.todos = l1 ++ t :: l2 ∧ t.id = todo_id ∧
      (TodoAppState.remove_todo todo_id s).1.todos = l1 ++ l2 := by
  obtain ⟨l1, t, l2, hl, hl1, ht⟩ := exists_first_match todo_id s.todos h
  refine ⟨l1, t, l2, hl, ht, ?_⟩
  have hmap : s.todos.map Todo.id = l1.map Todo.id ++ t.id :: l2.map Todo.id := by
    simp [hl]
  rw [hmap, List.nodup_middle] at hnd
  have htid_notin : t.id ∉ l1.map Todo.id ++ l2.map Todo.id := (List.nodup_cons.mp hnd).1
  have hl2 : ∀ u ∈ l2, u.id ≠ todo_id := by
    intro u hu heq
    exact htid_notin (List.mem_append.mpr
      (Or.inr (List.mem_map.mpr ⟨u, hu, heq.trans ht.symm⟩)))
  have hf1 : l1.filter (fun u => u.id != todo_id) = l1 :=
    List.filter_eq_self.mpr (fun a ha => by simpa using hl1 a ha)
  have hf2 : l2.filter (fun u => u.id != todo_id) = l2 :=
    List.filter_eq_self.mpr (fun a ha => by simpa using hl2 a ha)
  have hpt : (t.id != todo_id) = false := by simp [ht]
  simp only [TodoAppState.remove_todo, hl, List.filter_append, List.filter_cons, hpt,
    hf1, hf2]
  simp

/-- C6: remove(id) reports true exactly when a todo with that id is present;
on an absent id the store is unchanged; survivors keep their relative order;
and on a store with unique ids a present id deletes exactly the matching
record. -/
theorem remove_todo_spec (s : TodoAppState) (todo_id : String) :
    ((TodoAppState.remove_todo todo_id s).2 = true ↔ ∃ t ∈ s.todos, t.id = todo_id) ∧
    ((¬ ∃ t ∈ s.todos, t.id = todo_id) → TodoAppState.remove_todo todo_id s = (s, false)) ∧
    ((TodoAppState.remove_todo todo_id s).1.todos.Sublist s.todos) ∧
    ((s.todos.map Todo.id).Nodup → (∃ t ∈ s.todos, t.id = todo_id) →
      ∃ l1 t l2, s.todos = l1 ++ t :: l2 ∧ t.id = todo_id ∧
        (TodoAppState.remove_todo todo_id s).1.todos = l1 ++ l2) := by
  refine ⟨remove_todo_snd todo_id s, remove_todo_not_found todo_id s, ?_,
    remove_todo_found todo_id s⟩
  simp only [TodoAppState.remove_todo]
  exact List.filter_sublist s.todos

/-- C9: clearCompleted() keeps exactly the todos whose completed flag is
false, in their original relative order, and the handler always answers
success. -/
theorem clear_completed_spec (s : TodoAppState) :
    (TodoAppState.clear_completed s).todos
      = s.todos.filter (fun t => t.completed = false) ∧
    (TodoAppState.clear_completed s).todos.Sublist s.todos ∧
    clear_completed s
      = (TodoAppState.clear_completed s, { success := true, message := "" }) := by
  refine ⟨?_, ?_, rfl⟩
  · simp only [TodoAppState.clear_completed]
    exact List.filter_congr (fun t _ => by cases h : t.completed <;> simp [h])
  · exact List.filter_sublist s.todos

theorem filter_filterKeep (filter : Option String) (l : List Todo) :
    l.filter (filterKeep filter) = listSpec filter l := by
  rcases filter with _ | f
  · simp [listSpec, filterKeep]
  · by_cases h1 : f = "active"
    · subst h1
      rw [show listSpec (some "active") l
          = l.filter (fun t => decide (t.completed = false)) from by simp [listSpec]]
      exact List.filter_congr (fun t _ => by cases h : t.completed <;> simp [filterKeep, h])
    · by_cases h2 : f = "completed"
      · subst h2
        rw [show listSpec (some "completed") l
            = l.filter (fun t => decide (t.completed = true)) from by simp [listSpec]]
        exact List.filter_congr (fun t _ => by cases h : t.completed <;> simp [filterKeep, h])
      · rw [show listSpec (some f) l = l from by simp [listSpec, h1, h2]]
        rw [List.filter_congr
          (fun t _ => show filterKeep (some f) t = true from by simp [filterKeep, h1, h2])]
        exact List.filter_true l

/-- C2: the GET /todos handler answers success with exactly the todos the
spec's filter semantics selects, preserving the store's insertion order. -/
theorem todos_filter_spec (filter : Option String) (s : TodoAppState) :
    todos filter s
      = (s, { success := true, message := "", data := listSpec filter s.todos }) ∧
    (listSpec filter s.todos).Sublist s.todos := by
  constructor
  · simp only [todos, filter_filterKeep]
  · rw [← filter_filterKeep]
    exact List.filter_sublist s.todos

/-- C10: the GET /todos handler leaves the store exactly as it was and its
envelope always carries success == true with an empty message. -/
theorem todos_preserves_store (filter : Option String) (s : TodoAppState) :
    (todos filter s).1 = s ∧ (todos filter s).2.success = true ∧
      (todos filter s).2.message = "" :=
  ⟨rfl, rfl, rfl⟩

/-- C3: toggleAll() sets every completed flag to false when every todo was
completed, and to true otherwise; every todo receives the same single
decision, the negation of one all-completed scan of the pre-call store. -/
theorem toggle_all_spec (s : TodoAppState) :
    ((∀ t ∈ s.todos, t.completed = true) →
      (TodoAppState.toggle_all s).todos
        = s.todos.map (fun t => { t with completed := false })) ∧
    ((¬ ∀ t ∈ s.todos, t.completed = true) →
      (TodoAppState.toggle_all s).todos
        = s.todos.map (fun t => { t with completed := true })) ∧
    (∀ t ∈ (TodoAppState.toggle_all s).todos,
      t.completed = !(s.todos.all (fun u => u.completed))) := by
  refine ⟨?_, ?_, ?_⟩
  · intro h
    have hall : s.todos.all (fun u => u.completed) = true := List.all_eq_true.mpr h
    simp [TodoAppState.toggle_all, hall]
  · intro h
    have hall : s.todos.all (fun u => u.completed) = false := by
      rw [Bool.eq_false_iff]
      exact fun hc => h (List.all_eq_true.mp hc)
    simp [TodoAppState.toggle_all, hall]
  · intro t ht
    simp only [TodoAppState.toggle_all, List.mem_map] at ht
    obtain ⟨u, _, rfl⟩ := ht
    rfl

/-- C4 counterexample: the toggle_todo handler's not-found message ends in an
exclamation mark, so it is not the string "<id> is not found". -/
theorem toggle_todo_message_mismatch :
    (toggle_todo "x" TodoAppState.new).2.success = false ∧
    (toggle_todo "x" TodoAppState.new).2.message = "x is not found!" ∧
    ("x is not found!" : String) ≠ "x is not found" := by
  exact ⟨rfl, rfl, by decide⟩

/-- C4 amended: on a missing id, remove_todo and update_todo answer
success == false with message "<id> is not found", while toggle_todo answers
success == false with message "<id> is not found!". -/
theorem missing_id_envelopes (s : TodoAppState) (todo_id todo_content : String)
    (h : ¬ ∃ t ∈ s.todos, t.id = todo_id) :
    remove_todo todo_id s
      = (s, { success := false, message := todo_id ++ " is not found" }) ∧
    update_todo todo_id todo_content s
      = (s, { success := false, message := todo_id ++ " is not found" }) ∧
    toggle_todo todo_id s
      = (s, { success := false, message := todo_id ++ " is not found!" }) := by
  have hr := remove_todo_not_found todo_id s h
  have hu := handle_todo_not_found todo_id
    (fun todo => { id := todo_id, content := todo_content, completed := todo.completed }) s h
  have htg := handle_todo_not_found todo_id
    (fun todo => { todo with completed := !todo.completed }) s h
  refine ⟨?_, ?_, ?_⟩
  · simp only [remove_todo, hr]
  · simp only [update_todo, TodoAppState.update_todo, hu]
  · simp only [toggle_todo, TodoAppState.toggle_todo, htg]

theorem missing_id_envelopes_witness :
    (¬ ∃ t ∈ TodoAppState.new.todos, t.id = "x") ∧
    (remove_todo "x" TodoAppState.new
        = (TodoAppState.new, { success := false, message := "x" ++ " is not found" }) ∧
      update_todo "x" "y" TodoAppState.new
        = (TodoAppState.new, { success := false, message := "x" ++ " is not found" }) ∧
      toggle_todo "x" TodoAppState.new
        = (TodoAppState.new, { success := false, message := "x" ++ " is not found!" })) := by
  have h : ¬ ∃ t ∈ TodoAppState.new.todos, t.id = "x" := by
    simp [TodoAppState.new]
  exact ⟨h, missing_id_envelopes TodoAppState.new "x" "y" h⟩

theorem applyOp_good (gen : Nat → String) (hinj : Function.Injective gen)
    (op : Op) (sn : TodoAppState × Nat) (h : GoodState gen sn) :
    GoodState gen (applyOp gen op sn) := by
  obtain ⟨hnd, hbound⟩ := h
  cases op with
  | add content =>
    constructor
    · simp only [applyOp, TodoAppState.add_todo, List.map_append, List.map_cons,
        List.map_nil]
      rw [List.nodup_append]
      refine ⟨hnd, List.nodup_singleton _, ?_⟩
      intro x hx hy
      obtain ⟨t, ht, rfl⟩ := List.mem_map.1 hx
      obtain ⟨k, hk, hid⟩ := hbound t ht
      have hxy : t.id = gen sn.2 := by simpa using hy
      have : k = sn.2 := hinj (hid.symm.trans hxy)
      omega
    · intro t ht
      simp only [applyOp, TodoAppState.add_todo] at ht
      rcases List.mem_append.1 ht with ht1 | ht2
      · obtain ⟨k, hk, hid⟩ := hbound t ht1
        exact ⟨k, by simp only [applyOp]; omega, hid⟩
      · have : t = { id := gen sn.2, content := content, completed := false } := by
          simpa using ht2
        exact ⟨sn.2, by simp only [applyOp]; omega, by rw [this]⟩
  | remove todo_id =>
    constructor
    · exact ((List.filter_sublist sn.1.todos).map Todo.id).nodup hnd
    · intro t ht
      simp only [applyOp, TodoAppState.remove_todo] at ht
      exact hbound t (List.mem_filter.1 ht).1

theorem runOps_good (gen : Nat → String) (hinj : Function.Injective gen)
    (ops : List Op) (sn : TodoAppState × Nat) (h : GoodState gen sn) :
    GoodState gen (runOps gen ops sn) := by
  induction ops generalizing sn with
  | nil => exact h
  | cons op rest ih => exact ih (applyOp gen op sn) (applyOp_good gen hinj op sn h)

theorem assignedIds_bound (gen : Nat → String) (ops : List Op) (n : Nat) :
    ∀ x ∈ assignedIds gen ops n, ∃ k, n ≤ k ∧ x = gen k := by
  induction ops generalizing n with
  | nil => intro x hx; simp [assignedIds] at hx
  | cons op rest ih =>
    intro x hx
    cases op with
    | add content =>
      simp only [assignedIds] at hx
      rcases List.mem_cons.1 hx with rfl | hx2
      · exact ⟨n, Nat.le_refl n, rfl⟩
      · obtain ⟨k, hk, hxk⟩ := ih (n + 1) x hx2
        exact ⟨k, by omega, hxk⟩
    | remove todo_id =>
      simp only [assignedIds] at hx
      obtain ⟨k, hk, hxk⟩ := ih n x hx
      exact ⟨k, hk, hxk⟩

theorem gen0_injective : Function.Injective gen0 := by
  intro a b h
  have h2 : (gen0 a).data = (gen0 b).data := congrArg String.data h
  simp only [gen0] at h2
  have h3 := congrArg List.length h2
  simpa using h3

/-- C1: starting from the empty store, after any sequence of add and remove
operations the ids in the store are pairwise distinct, and any id ever held
by the store at some point of a run (in particular one removed later) is
never drawn again for a new todo by any later operations, provided the UUID
supply never repeats. -/
theorem ids_unique_and_never_reused (gen : Nat → String)
    (hinj : Function.Injective gen) (ops later : List Op) :
    ((reachable gen ops).1.todos.map Todo.id).Nodup ∧
    (∀ i ∈ (reachable gen ops).1.todos.map Todo.id,
      i ∉ assignedIds gen later (reachable gen ops).2) := by
  have hgood : GoodState gen (reachable gen ops) :=
    runOps_good gen hinj ops (TodoAppState.new, 0)
      ⟨by simp [TodoAppState.new], by simp [TodoAppState.new]⟩
  refine ⟨hgood.1, ?_⟩
  intro i hi hmem
  obtain ⟨t, ht, rfl⟩ := List.mem_map.1 hi
  obtain ⟨k, hk, hid⟩ := hgood.2 t ht
  obtain ⟨m, hm, hid2⟩ := assignedIds_bound gen later (reachable gen ops).2 t.id hmem
  have : k = m := hinj (hid.symm.trans hid2)
  omega

theorem ids_unique_witness :
    Function.Injective gen0 ∧
    (((reachable gen0 [Op.add "a", Op.add "b", Op.remove (gen0 0)]).1.todos.map
        Todo.id).Nodup ∧
      (∀ i ∈ (reachable gen0 [Op.add "a", Op.add "b",
          Op.remove (gen0 0)]).1.todos.map Todo.id,
        i ∉ assignedIds gen0 [Op.add "c"]
          (reachable gen0 [Op.add "a", Op.add "b", Op.remove (gen0 0)]).2)) :=
  ⟨gen0_injective, ids_unique_and_never_reused gen0 gen0_injective
    [Op.add "a", Op.add "b", Op.remove (gen0 0)] [Op.add "c"]⟩

/-- C7: on any reachable store, add(content) with the next freshly drawn id
appends exactly one todo at the end, with completed == false, the given
content and an id distinct from every pre-existing id; it returns that id,
grows the store by one and leaves the pre-existing todos unchanged. -/
theorem add_todo_spec (gen : Nat → String) (hinj : Function.Injective gen)
    (ops : List Op) (content : String) :
    (TodoAppState.add_todo (gen (reachable gen ops).2) content
        (reachable gen ops).1).1.todos
      = (reachable gen ops).1.todos
        ++ [{ id := gen (reachable gen ops).2, content := content,
              completed := false }] ∧
    (TodoAppState.add_todo (gen (reachable gen ops).2) content
        (reachable gen ops).1).2 = gen (reachable gen ops).2 ∧
    gen (reachable gen ops).2 ∉ (reachable gen ops).1.todos.map Todo.id ∧
    (TodoAppState.add_todo (gen (reachable gen ops).2) content
        (reachable gen ops).1).1.todos.length
      = (reachable gen ops).1.todos.length + 1 := by
  have hgood : GoodState gen (reachable gen ops) :=
    runOps_good gen hinj ops (TodoAppState.new, 0)
      ⟨by simp [TodoAppState.new], by simp [TodoAppState.new]⟩
  refine ⟨rfl, rfl, ?_, by simp [TodoAppState.add_todo]⟩
  intro hmem
  obtain ⟨t, ht, hid⟩ := List.mem_map.1 hmem
  obtain ⟨k, hk, hid2⟩ := hgood.2 t ht
  have : k = (reachable gen ops).2 := hinj (hid2.symm.trans hid)
  omega

theorem add_todo_spec_witness :
    Function.Injective gen0 ∧
    ((TodoAppState.add_todo (gen0 (reachable gen0 [Op.add "a"]).2) "x"
        (reachable gen0 [Op.add "a"]).1).1.todos
      = (reachable gen0 [Op.add "a"]).1.todos
        ++ [{ id := gen0 (reachable gen0 [Op.add "a"]).2, content := "x",
              completed := false }] ∧
    (TodoAppState.add_todo (gen0 (reachable gen0 [Op.add "a"]).2) "x"
        (reachable gen0 [Op.add "a"]).1).2 = gen0 (reachable gen0 [Op.add "a"]).2 ∧
    gen0 (reachable gen0 [Op.add "a"]).2
      ∉ (reachable gen0 [Op.add "a"]).1.todos.map Todo.id ∧
    (TodoAppState.add_todo (gen0 (reachable gen0 [Op.add "a"]).2) "x"
        (reachable gen0 [Op.add "a"]).1).1.todos.length
      = (reachable gen0 [Op.add "a"]).1.todos.length + 1) :=
  ⟨gen0_injective, add_todo_spec gen0 gen0_injective [Op.add "a"] "x"⟩
